import Mathlib

/-!
Shallow embedding of the N-puzzle solver (src/npuzzle.h, src/main.cpp).

Modelling conventions:
* `std::vector<int>` puzzle contents are modelled as `List Nat` (all tile values
  are non-negative); indexing `v[i]` is modelled as `getD i 0`, which agrees with
  the C++ read on the valid domain (index in bounds).
* The C++ `float` cost fields hold exact small integers for every heuristic except
  the Euclidean one, so integer-valued heuristics are modelled in `Nat` and the
  Euclidean heuristic in `ℝ` (`Real.sqrt` models `sqrt`).
* `dim = sqrt(len)` from the constructor is modelled by an executable integer
  square root `intSqrt` (exact on the perfect-square lengths the program handles).
* `std::unordered_map<string, PuzzleState>` with `operator[]` default-construction
  is modelled as an association list whose lookup returns the default (empty)
  `PuzzleState` when the key is absent; insertion prepends, which shadows any
  older entry, so lookups behave like the C++ map.
* The `std::priority_queue` with comparator `p1.f > p2.f` is a min-heap on `f`;
  its tie order among equal `f` values is unspecified in the source, and is
  modelled deterministically: `popMin` removes the earliest-pushed state among
  those of minimal `f`.
* `while` loops are modelled with an explicit fuel parameter; the search loop
  returns `none` if the fuel runs out, so any `some`-result is the value of the
  terminating C++ loop.
-/

namespace NPuzzleModel

/-- Mirrors `struct PuzzleState` (src/npuzzle.h): tile vector, blank index,
costs `g`, `h`, `f`, the move that produced the state (1-UP, 2-DOWN, 3-LEFT,
4-RIGHT, 0 otherwise) and the parent's key. -/
structure PuzzleState where
  state : List Nat
  blankIdx : Nat
  g : Nat
  h : Nat
  f : Nat
  move : Nat
  parentKey : String
deriving DecidableEq

/-- The default-constructed `PuzzleState()`: empty vector, all fields zeroed. -/
def emptyState : PuzzleState :=
  { state := [], blankIdx := 0, g := 0, h := 0, f := 0, move := 0, parentKey := "" }

instance : Inhabited PuzzleState := ⟨emptyState⟩

/-- Executable integer square root, modelling the constructor's
`dim = sqrt(len)` (a `double` square root truncated to `int`, exact on the
perfect-square lengths valid puzzles have). -/
def intSqrt (n : Nat) : Nat :=
  (List.range (n + 1)).foldl (fun acc d => if d * d ≤ n then d else acc) 0

/-- Mirrors the blank-locating loop of the `NPuzzle` constructor
(src/main.cpp:89-96): index of the first `0`, left at the default `0` if none. -/
def findBlankIdx (s : List Nat) : Nat :=
  match s.findIdx? (fun x => x == 0) with
  | some i => i
  | none => 0

/-- Mirrors `NPuzzle::getKey` (src/main.cpp:840-851): decimal concatenation of
all tile values of the state vector. -/
def getKey (s : List Nat) : String :=
  s.foldl (fun key n => key ++ Nat.repr n) ""

/-- Mirrors the inversion-counting nested loops of `NPuzzle::isSolvable`
(src/main.cpp:414-432): pairs `i < j` of indices whose tiles are both non-blank
with the tile at `j` smaller than the tile at `i`. -/
def inversionCount (s : List Nat) : Nat :=
  ∑ i ∈ Finset.range s.length, ∑ j ∈ Finset.Ico (i + 1) s.length,
    if s.getD i 0 ≠ 0 ∧ s.getD j 0 ≠ 0 ∧ s.getD j 0 < s.getD i 0 then 1 else 0

/-- Mirrors `NPuzzle::isSolvable` (src/main.cpp:412-453), with `len`, `dim` and
`blankIdx` obtained from the grid exactly as the constructor computes them. -/
def isSolvable (grid : List Nat) : Bool :=
  let len := grid.length
  let dim := intSqrt len
  let blankIdx := findBlankIdx grid
  let inv := inversionCount grid
  if dim % 2 = 1 then
    decide (inv % 2 = 0)
  else
    decide ((inv % 2 = 1 ∧ (dim - blankIdx / dim) % 2 = 0) ∨
            (inv % 2 = 0 ∧ (dim - blankIdx / dim) % 2 = 1))

/-- Mirrors `NPuzzle::isGoal` (src/main.cpp:469-480): every index below `len`
holds the blank or the tile `i + 1`. -/
def isGoal (len : Nat) (s : List Nat) : Bool :=
  (List.range len).all fun i => s.getD i 0 == 0 || s.getD i 0 == i + 1

/-- Mirrors `NPuzzle::misplacedTile` (src/main.cpp:532-548): number of non-blank
tiles not at their goal position. -/
def misplacedTile (len : Nat) (s : List Nat) : Nat :=
  ∑ i ∈ Finset.range len, if s.getD i 0 ≠ 0 ∧ s.getD i 0 ≠ i + 1 then 1 else 0

/-- Spec-side inversion count (§4.2 of the spec): the number of pairs
`(i, j)`, `i < j`, both tiles non-blank, with the tile at `j` smaller than the
tile at `i`, stated as the cardinality of the corresponding pair set. -/
def specInversions (s : List Nat) : Nat :=
  ((Finset.range s.length ×ˢ Finset.range s.length).filter
    (fun p => p.1 < p.2 ∧ s.getD p.1 0 ≠ 0 ∧ s.getD p.2 0 ≠ 0 ∧
      s.getD p.2 0 < s.getD p.1 0)).card

theorem inversionCount_eq_specInversions (s : List Nat) :
    inversionCount s = specInversions s := by
  classical
  unfold inversionCount specInversions
  rw [Finset.card_filter, Finset.sum_product]
  refine Finset.sum_congr rfl fun i _ => ?_
  rw [← Finset.sum_filter, ← Finset.sum_filter]
  refine Finset.sum_congr ?_ fun j _ => rfl
  ext j
  simp only [Finset.mem_filter, Finset.mem_Ico, Finset.mem_range]
  constructor
  · rintro ⟨⟨h1, h2⟩, h3⟩
    exact ⟨h2, h1, h3⟩
  · rintro ⟨h2, h1, h3⟩
    exact ⟨⟨h1, h2⟩, h3⟩

/-- C2: the solvability check returns true exactly per the parity policy: for
odd dimension iff the inversion count (counted over pairs of non-blank tiles)
is even; for even dimension iff inversions are odd and the blank's
row-from-bottom `dim - blankIdx / dim` is even, or inversions are even and that
row-from-bottom is odd. -/
theorem claim_C2_solvability_policy (grid : List Nat) :
    isSolvable grid = true ↔
      ((intSqrt grid.length % 2 = 1 ∧ Even (specInversions grid)) ∨
       (intSqrt grid.length % 2 = 0 ∧
         ((Odd (specInversions grid) ∧
             Even (intSqrt grid.length - findBlankIdx grid / intSqrt grid.length)) ∨
          (Even (specInversions grid) ∧
             Odd (intSqrt grid.length - findBlankIdx grid / intSqrt grid.length))))) := by
  unfold isSolvable
  rw [← inversionCount_eq_specInversions]
  simp only [Nat.even_iff, Nat.odd_iff]
  split
  · next h => simp [h]
  · next h =>
    have h0 : intSqrt grid.length % 2 = 0 := by omega
    simp [h, h0]

/-- C10: a state passes the goal test iff the misplaced-tile heuristic
evaluates to 0 on it (both count non-blank tiles off their goal index). -/
theorem claim_C10_isGoal_iff_misplaced_zero (len : Nat) (s : List Nat) :
    isGoal len s = true ↔ misplacedTile len s = 0 := by
  unfold isGoal misplacedTile
  rw [List.all_eq_true, Finset.sum_eq_zero_iff]
  constructor
  · intro h i hi
    have h2 := h i (List.mem_range.mpr (Finset.mem_range.mp hi))
    rw [Bool.or_eq_true, beq_iff_eq, beq_iff_eq] at h2
    have hn : ¬(s.getD i 0 ≠ 0 ∧ s.getD i 0 ≠ i + 1) := by tauto
    rw [if_neg hn]
  · intro h i hi
    have h2 := h i (Finset.mem_range.mpr (List.mem_range.mp hi))
    rw [Bool.or_eq_true, beq_iff_eq, beq_iff_eq]
    by_contra hc
    push_neg at hc
    rw [if_pos ⟨hc.1, hc.2⟩] at h2
    exact one_ne_zero h2

/-- Per-tile Manhattan term of `NPuzzle::manhattanDist` (src/main.cpp:612-624):
`0` for the blank, otherwise `|goalRow - curRow| + |goalCol - curCol|` computed
with the source's integer divisions (goal index of value `v` is `v - 1`). -/
def mdTerm (dim : Nat) (s : List Nat) (i : Nat) : Nat :=
  if s.getD i 0 = 0 then 0
  else
    (((s.getD i 0 - 1) / dim : Int) - (i / dim : Int)).natAbs +
    (((s.getD i 0 - 1) % dim : Int) - (i % dim : Int)).natAbs

/-- Mirrors `NPuzzle::manhattanDist` (src/main.cpp:606-627). -/
def manhattanDist (len dim : Nat) (s : List Nat) : Nat :=
  ∑ i ∈ Finset.range len, mdTerm dim s i

/-- Row-conflict pairs found by the forward scan at index `i` in
`NPuzzle::manhattanDistLinearConflict` (src/main.cpp:663-675): the guard
requires the tile at `i` non-blank with goal row equal to its current row; the
scan runs over the rest of the row and counts later non-blank tiles whose goal
row is that row and whose value is smaller. -/
def rowConfPairs (dim : Nat) (s : List Nat) (i : Nat) : Nat :=
  if s.getD i 0 ≠ 0 ∧ (s.getD i 0 - 1) / dim = i / dim then
    ((Finset.Ico (i + 1) ((i / dim) * dim + dim)).filter
      (fun j => s.getD j 0 ≠ 0 ∧ (s.getD j 0 - 1) / dim = i / dim ∧
        s.getD j 0 < s.getD i 0)).card
  else 0

/-- Column-conflict pairs found by the downward scan at index `i`
(src/main.cpp:677-689): the scan steps by `dim` through the rest of the column
(indices `j > i` with `j ≡ i (mod dim)`, up to `len`). -/
def colConfPairs (len dim : Nat) (s : List Nat) (i : Nat) : Nat :=
  if s.getD i 0 ≠ 0 ∧ (s.getD i 0 - 1) % dim = i % dim then
    ((Finset.Ico (i + 1) len).filter
      (fun j => j % dim = i % dim ∧ s.getD j 0 ≠ 0 ∧
        (s.getD j 0 - 1) % dim = i % dim ∧ s.getD j 0 < s.getD i 0)).card
  else 0

/-- Mirrors `NPuzzle::manhattanDistLinearConflict` (src/main.cpp:651-700): one
pass over the indices, adding 2 per row conflict and per column conflict found
by the forward scans, plus the Manhattan term of the tile. -/
def manhattanDistLinearConflict (len dim : Nat) (s : List Nat) : Nat :=
  ∑ i ∈ Finset.range len,
    (2 * rowConfPairs dim s i + 2 * colConfPairs len dim s i + mdTerm dim s i)

/-- Total number of linear-conflict pairs detected by the scans. -/
def linearConflictCount (len dim : Nat) (s : List Nat) : Nat :=
  ∑ i ∈ Finset.range len, (rowConfPairs dim s i + colConfPairs len dim s i)

theorem mlc_eq_md_add_two_mul_conflicts (len dim : Nat) (s : List Nat) :
    manhattanDistLinearConflict len dim s =
      manhattanDist len dim s + 2 * linearConflictCount len dim s := by
  unfold manhattanDistLinearConflict manhattanDist linearConflictCount
  rw [Finset.mul_sum, ← Finset.sum_add_distrib]
  refine Finset.sum_congr rfl fun i _ => ?_
  ring

/-- Spec-side row conflict (§4.3): tiles at `i < j` in the same row, both
non-blank, both with goal row equal to that row, with the larger value first. -/
def RowConflictAt (dim : Nat) (s : List Nat) (i j : Nat) : Prop :=
  i < j ∧ i / dim = j / dim ∧ s.getD i 0 ≠ 0 ∧ s.getD j 0 ≠ 0 ∧
    (s.getD i 0 - 1) / dim = i / dim ∧ (s.getD j 0 - 1) / dim = j / dim ∧
    s.getD j 0 < s.getD i 0

/-- Spec-side column conflict (§4.3): the transpose of a row conflict. -/
def ColConflictAt (dim : Nat) (s : List Nat) (i j : Nat) : Prop :=
  i < j ∧ i % dim = j % dim ∧ s.getD i 0 ≠ 0 ∧ s.getD j 0 ≠ 0 ∧
    (s.getD i 0 - 1) % dim = i % dim ∧ (s.getD j 0 - 1) % dim = j % dim ∧
    s.getD j 0 < s.getD i 0

/-- The state has some row or column linear conflict (spec wording). -/
def HasLinearConflict (len dim : Nat) (s : List Nat) : Prop :=
  ∃ i, ∃ j, i < len ∧ j < len ∧
    (RowConflictAt dim s i j ∨ ColConflictAt dim s i j)

theorem getD_ne_zero_lt_length (s : List Nat) (j : Nat) (h : s.getD j 0 ≠ 0) :
    j < s.length := by
  by_contra hle
  exact h (List.getD_eq_default s 0 (Nat.le_of_not_lt hle))

theorem div_eq_div_of_row (dim i j : Nat) (hdim : 0 < dim) (hij : i < j)
    (hj : j < (i / dim) * dim + dim) : j / dim = i / dim := by
  have hi := Nat.div_add_mod i dim
  have hj2 := Nat.div_add_mod j dim
  have hri : i % dim < dim := Nat.mod_lt i hdim
  have hrj : j % dim < dim := Nat.mod_lt j hdim
  by_contra hne
  rcases Nat.lt_or_ge (j / dim) (i / dim) with hlt | hge
  · have : j < i := by
      calc j = dim * (j / dim) + j % dim := hj2.symm
      _ < dim * (j / dim) + dim := by omega
      _ = dim * (j / dim + 1) := by ring
      _ ≤ dim * (i / dim) := Nat.mul_le_mul_left dim hlt
      _ ≤ dim * (i / dim) + i % dim := Nat.le_add_right ..
      _ = i := hi
    omega
  · have hgt : i / dim < j / dim := lt_of_le_of_ne hge fun h => hne h.symm
    have : (i / dim) * dim + dim ≤ j := by
      calc (i / dim) * dim + dim = dim * (i / dim + 1) := by ring
      _ ≤ dim * (j / dim) := Nat.mul_le_mul_left dim hgt
      _ ≤ dim * (j / dim) + j % dim := Nat.le_add_right ..
      _ = j := hj2
    omega

theorem linearConflictCount_eq_zero_iff (len dim : Nat) (s : List Nat)
    (hdim : 0 < dim) (hlen : s.length = len) :
    linearConflictCount len dim s = 0 ↔ ¬ HasLinearConflict len dim s := by
  classical
  unfold linearConflictCount
  rw [Finset.sum_eq_zero_iff]
  constructor
  · rintro hall ⟨i, j, hi, hj, hconf⟩
    have hterm := hall i (Finset.mem_range.mpr hi)
    rcases hconf with hrow | hcol
    · obtain ⟨hij, hdiv, hi0, hj0, hgi, hgj, hlt⟩ := hrow
      have hguard : s.getD i 0 ≠ 0 ∧ (s.getD i 0 - 1) / dim = i / dim :=
        ⟨hi0, hgi⟩
      have hrowPairs : rowConfPairs dim s i ≠ 0 := by
        unfold rowConfPairs
        rw [if_pos hguard]
        have hjmem : j ∈ (Finset.Ico (i + 1) ((i / dim) * dim + dim)).filter
            (fun j => s.getD j 0 ≠ 0 ∧ (s.getD j 0 - 1) / dim = i / dim ∧
              s.getD j 0 < s.getD i 0) := by
          rw [Finset.mem_filter, Finset.mem_Ico]
          refine ⟨⟨hij, ?_⟩, hj0, by rw [hgj, ← hdiv], hlt⟩
          have hjd := Nat.div_add_mod j dim
          have hrj : j % dim < dim := Nat.mod_lt j hdim
          calc j = dim * (j / dim) + j % dim := hjd.symm
          _ < dim * (j / dim) + dim := by omega
          _ = (j / dim) * dim + dim := by ring
          _ = (i / dim) * dim + dim := by rw [hdiv]
        have := Finset.card_pos.mpr ⟨j, hjmem⟩
        omega
      omega
    · obtain ⟨hij, hmod, hi0, hj0, hgi, hgj, hlt⟩ := hcol
      have hguard : s.getD i 0 ≠ 0 ∧ (s.getD i 0 - 1) % dim = i % dim :=
        ⟨hi0, hgi⟩
      have hcolPairs : colConfPairs len dim s i ≠ 0 := by
        unfold colConfPairs
        rw [if_pos hguard]
        have hjmem : j ∈ (Finset.Ico (i + 1) len).filter
            (fun j => j % dim = i % dim ∧ s.getD j 0 ≠ 0 ∧
              (s.getD j 0 - 1) % dim = i % dim ∧ s.getD j 0 < s.getD i 0) := by
          rw [Finset.mem_filter, Finset.mem_Ico]
          exact ⟨⟨hij, hj⟩, hmod.symm, hj0, by rw [hgj, ← hmod], hlt⟩
        have := Finset.card_pos.mpr ⟨j, hjmem⟩
        omega
      omega
  · intro hno i hi
    by_contra hne
    apply hno
    rcases Nat.eq_zero_or_pos (rowConfPairs dim s i) with hr0 | hrpos
    · have hcpos : colConfPairs len dim s i ≠ 0 := by omega
      unfold colConfPairs at hcpos
      by_cases hguard : s.getD i 0 ≠ 0 ∧ (s.getD i 0 - 1) % dim = i % dim
      · rw [if_pos hguard] at hcpos
        obtain ⟨j, hjmem⟩ := Finset.card_pos.mp (Nat.pos_of_ne_zero hcpos)
        rw [Finset.mem_filter, Finset.mem_Ico] at hjmem
        obtain ⟨⟨hij, hjlen⟩, hjm, hj0, hgj, hlt⟩ := hjmem
        exact ⟨i, j, Finset.mem_range.mp hi, hjlen,
          Or.inr ⟨hij, hjm.symm, hguard.1, hj0, hguard.2, by rw [hgj, hjm], hlt⟩⟩
      · rw [if_neg hguard] at hcpos
        exact absurd rfl hcpos
    · unfold rowConfPairs at hrpos
      by_cases hguard : s.getD i 0 ≠ 0 ∧ (s.getD i 0 - 1) / dim = i / dim
      · rw [if_pos hguard] at hrpos
        obtain ⟨j, hjmem⟩ := Finset.card_pos.mp hrpos
        rw [Finset.mem_filter, Finset.mem_Ico] at hjmem
        obtain ⟨⟨hij, hjr⟩, hj0, hgj, hlt⟩ := hjmem
        have hjdiv : j / dim = i / dim := div_eq_div_of_row dim i j hdim hij hjr
        have hjlen : j < len := hlen ▸ getD_ne_zero_lt_length s j hj0
        exact ⟨i, j, Finset.mem_range.mp hi, hjlen,
          Or.inl ⟨hij, hjdiv.symm, hguard.1, hj0, hguard.2, by rw [hgj, hjdiv], hlt⟩⟩
      · rw [if_neg hguard] at hrpos
        exact absurd hrpos (lt_irrefl 0)

/-- C7: for every puzzle state (a state of a `dim`-dimensional instance, so
`0 < dim` and the vector has the instance length), the Manhattan-plus-linear-
conflict heuristic is at least the Manhattan heuristic, with equality exactly
when the state has no row or column linear conflicts. -/
theorem claim_C7_mlc_dominates_manhattan (len dim : Nat) (s : List Nat)
    (hdim : 0 < dim) (hlen : s.length = len) :
    manhattanDist len dim s ≤ manhattanDistLinearConflict len dim s ∧
      (manhattanDistLinearConflict len dim s = manhattanDist len dim s ↔
        ¬ HasLinearConflict len dim s) := by
  have hdecomp := mlc_eq_md_add_two_mul_conflicts len dim s
  constructor
  · omega
  · rw [← linearConflictCount_eq_zero_iff len dim s hdim hlen]
    omega

/-- Witness for C7 at a concrete 8-puzzle state with a row conflict. -/
theorem claim_C7_witness :
    manhattanDist 9 3 [2, 1, 3, 4, 5, 6, 7, 8, 0] ≤
        manhattanDistLinearConflict 9 3 [2, 1, 3, 4, 5, 6, 7, 8, 0] ∧
      (manhattanDistLinearConflict 9 3 [2, 1, 3, 4, 5, 6, 7, 8, 0] =
          manhattanDist 9 3 [2, 1, 3, 4, 5, 6, 7, 8, 0] ↔
        ¬ HasLinearConflict 9 3 [2, 1, 3, 4, 5, 6, 7, 8, 0]) :=
  claim_C7_mlc_dominates_manhattan 9 3 [2, 1, 3, 4, 5, 6, 7, 8, 0]
    (by decide) (by decide)

/-- Mirrors `NPuzzle::euclideanDist` (src/main.cpp:566-588): for every
non-blank tile, the square root of the squared integer row and column
distances, summed over the state.  `sqrt` on `double` is modelled by
`Real.sqrt`, so the result lives in `ℝ`. -/
noncomputable def euclideanDist (len dim : Nat) (s : List Nat) : ℝ :=
  ∑ i ∈ Finset.range len,
    if s.getD i 0 = 0 then 0
    else
      Real.sqrt
        (((((i / dim : Nat) : Int) - (((s.getD i 0 - 1) / dim : Nat) : Int)) *
            (((i / dim : Nat) : Int) - (((s.getD i 0 - 1) / dim : Nat) : Int)) +
          ((((i % dim : Nat) : Int) - (((s.getD i 0 - 1) % dim : Nat) : Int)) *
            (((i % dim : Nat) : Int) - (((s.getD i 0 - 1) % dim : Nat) : Int))) : Int) : ℝ)

/-- Mirrors `NPuzzle::getHeuristicCost` (src/main.cpp:503-516): dispatch on the
heuristic selector (a C++ `int`, modelled as `ℤ`), falling through to cost `0`
(Uniform Cost Search) on any unrecognized value. -/
noncomputable def getHeuristicCost (len dim : Nat) (s : List Nat)
    (heuristic : Int) : ℝ :=
  if heuristic = 2 then (misplacedTile len s : ℝ)
  else if heuristic = 3 then euclideanDist len dim s
  else if heuristic = 4 then (manhattanDist len dim s : ℝ)
  else if heuristic = 5 then (manhattanDistLinearConflict len dim s : ℝ)
  else 0

/-- C9: the heuristic evaluator is total over selectors: selectors 2, 3, 4, 5
yield the MisplacedTile, Euclidean, Manhattan and Manhattan-plus-linear-conflict
costs respectively; every other selector yields cost 0 (UniformCost) rather
than failing; and the result is always non-negative. -/
theorem claim_C9_heuristic_dispatch_total (len dim : Nat) (s : List Nat) :
    getHeuristicCost len dim s 2 = (misplacedTile len s : ℝ) ∧
    getHeuristicCost len dim s 3 = euclideanDist len dim s ∧
    getHeuristicCost len dim s 4 = (manhattanDist len dim s : ℝ) ∧
    getHeuristicCost len dim s 5 = (manhattanDistLinearConflict len dim s : ℝ) ∧
    (∀ k : Int, k ≠ 2 → k ≠ 3 → k ≠ 4 → k ≠ 5 →
      getHeuristicCost len dim s k = 0) ∧
    (∀ k : Int, 0 ≤ getHeuristicCost len dim s k) := by
  have heuc : 0 ≤ euclideanDist len dim s := by
    refine Finset.sum_nonneg fun i _ => ?_
    split
    · exact le_refl 0
    · exact Real.sqrt_nonneg _
  refine ⟨rfl, rfl, rfl, rfl, ?_, ?_⟩
  · intro k h2 h3 h4 h5
    unfold getHeuristicCost
    rw [if_neg h2, if_neg h3, if_neg h4, if_neg h5]
  · intro k
    unfold getHeuristicCost
    split
    · exact Nat.cast_nonneg _
    · split
      · exact heuc
      · split
        · exact Nat.cast_nonneg _
        · split
          · exact Nat.cast_nonneg _
          · exact le_refl 0

/-- Witness for C9 at a concrete state and the unrecognized selector 7. -/
theorem claim_C9_witness :
    getHeuristicCost 9 3 [1, 2, 0, 4, 5, 3, 7, 8, 6] 2 =
        (misplacedTile 9 [1, 2, 0, 4, 5, 3, 7, 8, 6] : ℝ) ∧
      getHeuristicCost 9 3 [1, 2, 0, 4, 5, 3, 7, 8, 6] 7 = 0 ∧
      0 ≤ getHeuristicCost 9 3 [1, 2, 0, 4, 5, 3, 7, 8, 6] 7 := by
  have h := claim_C9_heuristic_dispatch_total 9 3 [1, 2, 0, 4, 5, 3, 7, 8, 6]
  exact ⟨h.1, h.2.2.2.2.1 7 (by decide) (by decide) (by decide) (by decide),
    h.2.2.2.2.2 7⟩

theorem string_data_append (a b : String) : (a ++ b).data = a.data ++ b.data := by
  cases a
  cases b
  rfl

theorem getKey_data (s : List Nat) :
    ∀ acc : String,
      (s.foldl (fun key n => key ++ Nat.repr n) acc).data =
        acc.data ++ (s.map fun n => (Nat.repr n).data).flatten := by
  induction s with
  | nil => intro acc; simp
  | cons x xs ih =>
    intro acc
    rw [List.foldl_cons, ih, string_data_append]
    simp [List.append_assoc]

theorem repr_single_digit : ∀ n < 10, (Nat.repr n).data = [Nat.digitChar n] := by
  decide

theorem digitChar_inj : ∀ a < 10, ∀ b < 10,
    Nat.digitChar a = Nat.digitChar b → a = b := by
  decide

theorem getKey_data_digits (s : List Nat) (hs : ∀ x ∈ s, x < 10) :
    (getKey s).data = s.map Nat.digitChar := by
  unfold getKey
  rw [getKey_data]
  have : (s.map fun n => (Nat.repr n).data) = s.map fun n => [Nat.digitChar n] :=
    List.map_congr_left fun x hx => repr_single_digit x (hs x hx)
  rw [this]
  have hflat : ∀ t : List Nat, (t.map fun n => [Nat.digitChar n]).flatten =
      t.map Nat.digitChar := by
    intro t
    induction t with
    | nil => rfl
    | cons y ys ihy => simp [ihy]
  rw [hflat]
  rfl

theorem map_digitChar_inj : ∀ s1 s2 : List Nat, (∀ x ∈ s1, x < 10) →
    (∀ x ∈ s2, x < 10) → s1.map Nat.digitChar = s2.map Nat.digitChar → s1 = s2 := by
  intro s1
  induction s1 with
  | nil =>
    intro s2 _ _ h
    cases s2 with
    | nil => rfl
    | cons y ys => exact absurd h (by simp)
  | cons x xs ih =>
    intro s2 h1 h2 h
    cases s2 with
    | nil => exact absurd h (by simp)
    | cons y ys =>
      rw [List.map_cons, List.map_cons, List.cons_eq_cons] at h
      have hx : x = y := digitChar_inj x (h1 x (by simp)) y (h2 y (by simp)) h.1
      have hxs : xs = ys := ih ys (fun z hz => h1 z (by simp [hz]))
        (fun z hz => h2 z (by simp [hz])) h.2
      rw [hx, hxs]

/-- C4 fails on the code for the 15-puzzle: two distinct permutations of
`0..15` whose decimal-concatenation keys coincide (`1,5,15,…` versus
`15,1,5,…` both produce the key prefix `"1515"`). -/
theorem claim_C4_counterexample :
    List.Perm [1, 5, 15, 0, 2, 3, 4, 6, 7, 8, 9, 10, 11, 12, 13, 14]
      (List.range 16) ∧
    List.Perm [15, 1, 5, 0, 2, 3, 4, 6, 7, 8, 9, 10, 11, 12, 13, 14]
      (List.range 16) ∧
    getKey [1, 5, 15, 0, 2, 3, 4, 6, 7, 8, 9, 10, 11, 12, 13, 14] =
      getKey [15, 1, 5, 0, 2, 3, 4, 6, 7, 8, 9, 10, 11, 12, 13, 14] ∧
    [1, 5, 15, 0, 2, 3, 4, 6, 7, 8, 9, 10, 11, 12, 13, 14] ≠
      [15, 1, 5, 0, 2, 3, 4, 6, 7, 8, 9, 10, 11, 12, 13, 14] := by
  refine ⟨by decide, by decide, ?_, by decide⟩
  decide

/-- C4 amended: for puzzle states that are permutations of `0..N` whose tile
values are all single-digit (`len ≤ 10`, which covers the 8-puzzle but not the
15-puzzle), the decimal-concatenation keys are equal iff the tile sequences are
equal. -/
theorem claim_C4_amended_single_digit (len : Nat) (s1 s2 : List Nat)
    (hlen : len ≤ 10) (h1 : List.Perm s1 (List.range len))
    (h2 : List.Perm s2 (List.range len)) :
    getKey s1 = getKey s2 ↔ s1 = s2 := by
  constructor
  · intro hk
    have d1 : ∀ x ∈ s1, x < 10 := fun x hx =>
      lt_of_lt_of_le (List.mem_range.mp (h1.mem_iff.mp hx)) hlen
    have d2 : ∀ x ∈ s2, x < 10 := fun x hx =>
      lt_of_lt_of_le (List.mem_range.mp (h2.mem_iff.mp hx)) hlen
    have hdata : (getKey s1).data = (getKey s2).data := by rw [hk]
    rw [getKey_data_digits s1 d1, getKey_data_digits s2 d2] at hdata
    exact map_digitChar_inj s1 s2 d1 d2 hdata
  · intro h
    rw [h]

/-- Witness for the amended C4 on two concrete 8-puzzle states. -/
theorem claim_C4_amended_witness :
    (getKey [1, 2, 0, 4, 5, 3, 7, 8, 6] = getKey [1, 2, 3, 4, 5, 6, 7, 8, 0] ↔
      [1, 2, 0, 4, 5, 3, 7, 8, 6] = [1, 2, 3, 4, 5, 6, 7, 8, 0]) :=
  claim_C4_amended_single_digit 9 [1, 2, 0, 4, 5, 3, 7, 8, 6]
    [1, 2, 3, 4, 5, 6, 7, 8, 0] (by decide) (by decide) (by decide)

/-- UP child of `NPuzzle::generateChildren` (src/main.cpp:729-741): copy the
state, write the value above the blank into the blank cell, zero the cell
above, move the blank index up one row, tag the move. All other fields are
copied from the parent, as the C++ copy-construction does. -/
def childUp (dim : Nat) (p : PuzzleState) : PuzzleState :=
  { p with
    state := (p.state.set p.blankIdx (p.state.getD (p.blankIdx - dim) 0)).set
      (p.blankIdx - dim) 0,
    blankIdx := p.blankIdx - dim,
    move := 1 }

/-- DOWN child (src/main.cpp:744-754). -/
def childDown (dim : Nat) (p : PuzzleState) : PuzzleState :=
  { p with
    state := (p.state.set p.blankIdx (p.state.getD (p.blankIdx + dim) 0)).set
      (p.blankIdx + dim) 0,
    blankIdx := p.blankIdx + dim,
    move := 2 }

/-- LEFT child (src/main.cpp:757-767). -/
def childLeft (dim : Nat) (p : PuzzleState) : PuzzleState :=
  { p with
    state := (p.state.set p.blankIdx (p.state.getD (p.blankIdx - 1) 0)).set
      (p.blankIdx - 1) 0,
    blankIdx := p.blankIdx - 1,
    move := 3 }

/-- RIGHT child (src/main.cpp:770-780). -/
def childRight (dim : Nat) (p : PuzzleState) : PuzzleState :=
  { p with
    state := (p.state.set p.blankIdx (p.state.getD (p.blankIdx + 1) 0)).set
      (p.blankIdx + 1) 0,
    blankIdx := p.blankIdx + 1,
    move := 4 }

/-- Mirrors `NPuzzle::generateChildren` (src/main.cpp:722-783): with
`currentRow = blankIdx / dim` and `currentCol = blankIdx % dim`, push the UP,
DOWN, LEFT, RIGHT children in that order, each guarded by its feasibility
test. -/
def generateChildren (dim : Nat) (p : PuzzleState) : List PuzzleState :=
  (if 0 < p.blankIdx / dim then [childUp dim p] else []) ++
  (if p.blankIdx / dim < dim - 1 then [childDown dim p] else []) ++
  (if 0 < p.blankIdx % dim then [childLeft dim p] else []) ++
  (if p.blankIdx % dim < dim - 1 then [childRight dim p] else [])

/-- The move that undoes each move label: UP-DOWN and LEFT-RIGHT are mutually
inverse. -/
def inverseMove : Nat → Nat
  | 1 => 2
  | 2 => 1
  | 3 => 4
  | 4 => 3
  | _ => 0

theorem mem_generateChildren (dim : Nat) (p c : PuzzleState) :
    c ∈ generateChildren dim p ↔
      (0 < p.blankIdx / dim ∧ c = childUp dim p) ∨
      (p.blankIdx / dim < dim - 1 ∧ c = childDown dim p) ∨
      (0 < p.blankIdx % dim ∧ c = childLeft dim p) ∨
      (p.blankIdx % dim < dim - 1 ∧ c = childRight dim p) := by
  unfold generateChildren
  simp only [List.mem_append]
  constructor
  · intro h
    rcases h with ((h | h) | h) | h
    · split at h
      · next hcond => exact Or.inl ⟨hcond, List.mem_singleton.mp h⟩
      · exact absurd h (List.not_mem_nil c)
    · split at h
      · next hcond => exact Or.inr (Or.inl ⟨hcond, List.mem_singleton.mp h⟩)
      · exact absurd h (List.not_mem_nil c)
    · split at h
      · next hcond => exact Or.inr (Or.inr (Or.inl ⟨hcond, List.mem_singleton.mp h⟩))
      · exact absurd h (List.not_mem_nil c)
    · split at h
      · next hcond =>
        exact Or.inr (Or.inr (Or.inr ⟨hcond, List.mem_singleton.mp h⟩))
      · exact absurd h (List.not_mem_nil c)
  · intro h
    rcases h with ⟨hc, rfl⟩ | ⟨hc, rfl⟩ | ⟨hc, rfl⟩ | ⟨hc, rfl⟩
    · exact Or.inl (Or.inl (Or.inl (by rw [if_pos hc]; exact List.mem_singleton.mpr rfl)))
    · exact Or.inl (Or.inl (Or.inr (by rw [if_pos hc]; exact List.mem_singleton.mpr rfl)))
    · exact Or.inl (Or.inr (by rw [if_pos hc]; exact List.mem_singleton.mpr rfl))
    · exact Or.inr (by rw [if_pos hc]; exact List.mem_singleton.mpr rfl)

theorem getElem?_of_getD (s : List Nat) (a : Nat) (ha : a < s.length) :
    s[a]? = some (s.getD a 0) := by
  rw [List.getD_eq_getElem?_getD, List.getElem?_eq_getElem ha]
  rfl

/-- Sliding a tile from cell `b` into the blank at cell `a`, then sliding it
back, restores the original vector. -/
theorem double_move_state (s : List Nat) (a b : Nat) (ha : a < s.length)
    (hb : b < s.length) (hne : b ≠ a) (h0 : s.getD a 0 = 0) :
    ((((s.set a (s.getD b 0)).set b 0).set b
        ((((s.set a (s.getD b 0)).set b 0)).getD a 0)).set a 0) = s := by
  have hca : (((s.set a (s.getD b 0)).set b 0)).getD a 0 = s.getD b 0 := by
    rw [List.getD_eq_getElem?_getD, List.getElem?_set_ne hne,
      List.getElem?_set_eq_of_lt (s.getD b 0) ha]
    rfl
  rw [hca, List.set_set]
  apply List.ext_getElem?
  intro k
  by_cases hka : k = a
  · subst hka
    rw [List.getElem?_set_eq_of_lt 0 (by simpa using ha),
      getElem?_of_getD s k ha, h0]
  · rw [List.getElem?_set_ne fun h => hka h.symm]
    by_cases hkb : k = b
    · subst hkb
      rw [List.getElem?_set_eq_of_lt (s.getD k 0) (by simpa using hb),
        getElem?_of_getD s k hb]
    · rw [List.getElem?_set_ne fun h => hkb h.symm,
        List.getElem?_set_ne fun h => hka h.symm]

theorem sub_dim_div (dim b : Nat) (hdim : 0 < dim) (hbd : dim ≤ b) :
    (b - dim) / dim = b / dim - 1 := by
  have h1 := Nat.div_add_mod b dim
  have h2 : 1 ≤ b / dim := by
    rw [Nat.le_div_iff_mul_le hdim]
    omega
  have h4 : dim * (b / dim) = dim * (b / dim - 1) + dim := by
    have hq : b / dim = (b / dim - 1) + 1 := by omega
    conv_lhs => rw [hq]
    ring
  have h3 : b - dim = dim * (b / dim - 1) + b % dim := by omega
  rw [h3, Nat.mul_add_div hdim, Nat.div_eq_of_lt (Nat.mod_lt b hdim), Nat.add_zero]

theorem sub_one_divmod (dim b : Nat) (hdim : 0 < dim) (hr : 0 < b % dim) :
    (b - 1) % dim = b % dim - 1 ∧ (b - 1) / dim = b / dim := by
  have h1 := Nat.div_add_mod b dim
  have hrb : b % dim < dim := Nat.mod_lt b hdim
  have h3 : b - 1 = dim * (b / dim) + (b % dim - 1) := by omega
  have hlt : b % dim - 1 < dim := by omega
  constructor
  · rw [h3, Nat.mul_add_mod, Nat.mod_eq_of_lt hlt]
  · rw [h3, Nat.mul_add_div hdim, Nat.div_eq_of_lt hlt, Nat.add_zero]

theorem add_one_divmod (dim b : Nat) (hdim : 0 < dim) (hr : b % dim < dim - 1) :
    (b + 1) % dim = b % dim + 1 ∧ (b + 1) / dim = b / dim := by
  have h1 := Nat.div_add_mod b dim
  have h3 : b + 1 = dim * (b / dim) + (b % dim + 1) := by omega
  have hlt : b % dim + 1 < dim := by omega
  constructor
  · rw [h3, Nat.mul_add_mod, Nat.mod_eq_of_lt hlt]
  · rw [h3, Nat.mul_add_div hdim, Nat.div_eq_of_lt hlt, Nat.add_zero]

theorem up_down_roundtrip (dim : Nat) (p : PuzzleState) (hdim : 0 < dim)
    (hlen : p.state.length = dim * dim) (hb : p.blankIdx < dim * dim)
    (h0 : p.state.getD p.blankIdx 0 = 0) (hup : 0 < p.blankIdx / dim) :
    (childDown dim (childUp dim p)).state = p.state ∧
      (childDown dim (childUp dim p)).blankIdx = p.blankIdx := by
  have hbd : dim ≤ p.blankIdx := by
    by_contra hlt
    rw [Nat.div_eq_of_lt (Nat.lt_of_not_le hlt)] at hup
    exact absurd hup (lt_irrefl 0)
  have hadd : p.blankIdx - dim + dim = p.blankIdx := Nat.sub_add_cancel hbd
  have hnei : p.blankIdx - dim ≠ p.blankIdx := by omega
  have ha : p.blankIdx < p.state.length := by rw [hlen]; exact hb
  have ha2 : p.blankIdx - dim < p.state.length := by rw [hlen]; omega
  constructor
  · have key := double_move_state p.state p.blankIdx (p.blankIdx - dim)
      ha ha2 hnei h0
    simp only [childUp, childDown]
    rw [hadd]
    exact key
  · simp only [childUp, childDown]
    exact hadd

theorem down_up_roundtrip (dim : Nat) (p : PuzzleState) (hdim : 0 < dim)
    (hlen : p.state.length = dim * dim) (hb : p.blankIdx < dim * dim)
    (h0 : p.state.getD p.blankIdx 0 = 0) (hdown : p.blankIdx / dim < dim - 1) :
    (childUp dim (childDown dim p)).state = p.state ∧
      (childUp dim (childDown dim p)).blankIdx = p.blankIdx := by
  have h1 := Nat.div_add_mod p.blankIdx dim
  have hr := Nat.mod_lt p.blankIdx hdim
  have hexp : dim * (p.blankIdx / dim + 2) = dim * (p.blankIdx / dim) + 2 * dim := by
    ring
  have hmul : dim * (p.blankIdx / dim + 2) ≤ dim * dim :=
    Nat.mul_le_mul_left dim (by omega)
  have hbound : p.blankIdx + dim < dim * dim := by omega
  have hsub : p.blankIdx + dim - dim = p.blankIdx := Nat.add_sub_cancel ..
  have hnei : p.blankIdx + dim ≠ p.blankIdx := by omega
  have ha : p.blankIdx < p.state.length := by rw [hlen]; exact hb
  have ha2 : p.blankIdx + dim < p.state.length := by rw [hlen]; exact hbound
  constructor
  · have key := double_move_state p.state p.blankIdx (p.blankIdx + dim)
      ha ha2 hnei h0
    simp only [childDown, childUp]
    rw [hsub]
    exact key
  · simp only [childDown, childUp]
    exact hsub

theorem left_right_roundtrip (dim : Nat) (p : PuzzleState) (hdim : 0 < dim)
    (hlen : p.state.length = dim * dim) (hb : p.blankIdx < dim * dim)
    (h0 : p.state.getD p.blankIdx 0 = 0) (hleft : 0 < p.blankIdx % dim) :
    (childRight dim (childLeft dim p)).state = p.state ∧
      (childRight dim (childLeft dim p)).blankIdx = p.blankIdx := by
  have h1 := Nat.div_add_mod p.blankIdx dim
  have hpos : 1 ≤ p.blankIdx := by omega
  have hadd : p.blankIdx - 1 + 1 = p.blankIdx := Nat.sub_add_cancel hpos
  have hnei : p.blankIdx - 1 ≠ p.blankIdx := by omega
  have ha : p.blankIdx < p.state.length := by rw [hlen]; exact hb
  have ha2 : p.blankIdx - 1 < p.state.length := by rw [hlen]; omega
  constructor
  · have key := double_move_state p.state p.blankIdx (p.blankIdx - 1)
      ha ha2 hnei h0
    simp only [childLeft, childRight]
    rw [hadd]
    exact key
  · simp only [childLeft, childRight]
    exact hadd

theorem right_left_roundtrip (dim : Nat) (p : PuzzleState) (hdim : 0 < dim)
    (hlen : p.state.length = dim * dim) (hb : p.blankIdx < dim * dim)
    (h0 : p.state.getD p.blankIdx 0 = 0) (hright : p.blankIdx % dim < dim - 1) :
    (childLeft dim (childRight dim p)).state = p.state ∧
      (childLeft dim (childRight dim p)).blankIdx = p.blankIdx := by
  have h1 := Nat.div_add_mod p.blankIdx dim
  have hqlt : p.blankIdx / dim < dim := (Nat.div_lt_iff_lt_mul hdim).mpr hb
  have hexp : dim * (p.blankIdx / dim + 1) = dim * (p.blankIdx / dim) + dim := by
    ring
  have hmul : dim * (p.blankIdx / dim + 1) ≤ dim * dim :=
    Nat.mul_le_mul_left dim (by omega)
  have hbound : p.blankIdx + 1 < dim * dim := by omega
  have hsub : p.blankIdx + 1 - 1 = p.blankIdx := Nat.add_sub_cancel ..
  have hnei : p.blankIdx + 1 ≠ p.blankIdx := by omega
  have ha : p.blankIdx < p.state.length := by rw [hlen]; exact hb
  have ha2 : p.blankIdx + 1 < p.state.length := by rw [hlen]; exact hbound
  constructor
  · have key := double_move_state p.state p.blankIdx (p.blankIdx + 1)
      ha ha2 hnei h0
    simp only [childRight, childLeft]
    rw [hsub]
    exact key
  · simp only [childRight, childLeft]
    exact hsub

theorem find?_move_one (dim : Nat) (q : PuzzleState)
    (hfeas : 0 < q.blankIdx / dim) :
    (generateChildren dim q).find? (fun d => d.move == 1) =
      some (childUp dim q) := by
  unfold generateChildren
  simp only [List.find?_append]
  rw [if_pos hfeas, List.find?_cons_of_pos _ (by simp [childUp])]
  rfl

theorem find?_move_two (dim : Nat) (q : PuzzleState)
    (hfeas : q.blankIdx / dim < dim - 1) :
    (generateChildren dim q).find? (fun d => d.move == 2) =
      some (childDown dim q) := by
  unfold generateChildren
  rw [List.find?_append]
  have h1 : (if 0 < q.blankIdx / dim then [childUp dim q] else []).find?
      (fun d => d.move == 2) = none := by
    split
    · rw [List.find?_cons_of_neg _ (by simp [childUp])]
      rfl
    · rfl
  simp only [List.find?_append]
  rw [h1, Option.none_or, if_pos hfeas,
    List.find?_cons_of_pos _ (by simp [childDown])]
  rfl

theorem find?_move_three (dim : Nat) (q : PuzzleState)
    (hfeas : 0 < q.blankIdx % dim) :
    (generateChildren dim q).find? (fun d => d.move == 3) =
      some (childLeft dim q) := by
  unfold generateChildren
  rw [List.find?_append]
  have h1 : (if 0 < q.blankIdx / dim then [childUp dim q] else []).find?
      (fun d => d.move == 3) = none := by
    split
    · rw [List.find?_cons_of_neg _ (by simp [childUp])]
      rfl
    · rfl
  have h2 : (if q.blankIdx / dim < dim - 1 then [childDown dim q] else []).find?
      (fun d => d.move == 3) = none := by
    split
    · rw [List.find?_cons_of_neg _ (by simp [childDown])]
      rfl
    · rfl
  simp only [List.find?_append]
  rw [h1, Option.none_or, h2, Option.none_or, if_pos hfeas,
    List.find?_cons_of_pos _ (by simp [childLeft])]
  rfl

theorem find?_move_four (dim : Nat) (q : PuzzleState)
    (hfeas : q.blankIdx % dim < dim - 1) :
    (generateChildren dim q).find? (fun d => d.move == 4) =
      some (childRight dim q) := by
  unfold generateChildren
  rw [List.find?_append]
  have h1 : (if 0 < q.blankIdx / dim then [childUp dim q] else []).find?
      (fun d => d.move == 4) = none := by
    split
    · rw [List.find?_cons_of_neg _ (by simp [childUp])]
      rfl
    · rfl
  have h2 : (if q.blankIdx / dim < dim - 1 then [childDown dim q] else []).find?
      (fun d => d.move == 4) = none := by
    split
    · rw [List.find?_cons_of_neg _ (by simp [childDown])]
      rfl
    · rfl
  have h3 : (if 0 < q.blankIdx % dim then [childLeft dim q] else []).find?
      (fun d => d.move == 4) = none := by
    split
    · rw [List.find?_cons_of_neg _ (by simp [childLeft])]
      rfl
    · rfl
  simp only [List.find?_append]
  rw [h1, Option.none_or, h2, Option.none_or, h3, Option.none_or, if_pos hfeas,
    List.find?_cons_of_pos _ (by simp [childRight])]

/-- C8: move reversibility. For a valid puzzle state (blank index in bounds
and pointing at the blank) and any child produced by the transition generator,
the child of that child tagged with the inverse move (UP-DOWN, LEFT-RIGHT)
exists and restores the original tile sequence and blank index. -/
theorem claim_C8_move_reversibility (dim : Nat) (p c : PuzzleState)
    (hdim : 0 < dim) (hlen : p.state.length = dim * dim)
    (hb : p.blankIdx < dim * dim) (h0 : p.state.getD p.blankIdx 0 = 0)
    (hc : c ∈ generateChildren dim p) :
    ((generateChildren dim c).find? (fun d => d.move == inverseMove c.move)).map
      (fun d => (d.state, d.blankIdx)) = some (p.state, p.blankIdx) := by
  rcases (mem_generateChildren dim p c).mp hc with
    ⟨hcond, rfl⟩ | ⟨hcond, rfl⟩ | ⟨hcond, rfl⟩ | ⟨hcond, rfl⟩
  · have hmove : inverseMove (childUp dim p).move = 2 := rfl
    rw [hmove]
    have hbd : dim ≤ p.blankIdx := by
      by_contra hlt
      rw [Nat.div_eq_of_lt (Nat.lt_of_not_le hlt)] at hcond
      exact absurd hcond (lt_irrefl 0)
    have hfeas : (childUp dim p).blankIdx / dim < dim - 1 := by
      show (p.blankIdx - dim) / dim < dim - 1
      rw [sub_dim_div dim p.blankIdx hdim hbd]
      have hqlt : p.blankIdx / dim < dim := (Nat.div_lt_iff_lt_mul hdim).mpr hb
      generalize hq : p.blankIdx / dim = q at hcond hqlt ⊢
      omega
    rw [find?_move_two dim (childUp dim p) hfeas]
    have hrt := up_down_roundtrip dim p hdim hlen hb h0 hcond
    simp [hrt.1, hrt.2]
  · have hmove : inverseMove (childDown dim p).move = 1 := rfl
    rw [hmove]
    have hfeas : 0 < (childDown dim p).blankIdx / dim := by
      show 0 < (p.blankIdx + dim) / dim
      rw [Nat.add_div_right _ hdim]
      exact Nat.succ_pos _
    rw [find?_move_one dim (childDown dim p) hfeas]
    have hrt := down_up_roundtrip dim p hdim hlen hb h0 hcond
    simp [hrt.1, hrt.2]
  · have hmove : inverseMove (childLeft dim p).move = 4 := rfl
    rw [hmove]
    have hrdim : p.blankIdx % dim < dim := Nat.mod_lt p.blankIdx hdim
    have hfeas : (childLeft dim p).blankIdx % dim < dim - 1 := by
      show (p.blankIdx - 1) % dim < dim - 1
      rw [(sub_one_divmod dim p.blankIdx hdim hcond).1]
      generalize hr : p.blankIdx % dim = r at hrdim hcond ⊢
      omega
    rw [find?_move_four dim (childLeft dim p) hfeas]
    have hrt := left_right_roundtrip dim p hdim hlen hb h0 hcond
    simp [hrt.1, hrt.2]
  · have hmove : inverseMove (childRight dim p).move = 3 := rfl
    rw [hmove]
    have hfeas : 0 < (childRight dim p).blankIdx % dim := by
      show 0 < (p.blankIdx + 1) % dim
      rw [(add_one_divmod dim p.blankIdx hdim hcond).1]
      exact Nat.succ_pos _
    rw [find?_move_three dim (childRight dim p) hfeas]
    have hrt := right_left_roundtrip dim p hdim hlen hb h0 hcond
    simp [hrt.1, hrt.2]

/-- The `easy` default puzzle (src/unnamed/part_000): `{1,2,0,4,5,3,7,8,6}`. -/
def easyGrid : List Nat := [1, 2, 0, 4, 5, 3, 7, 8, 6]

/-- The 8-puzzle goal arrangement. -/
def goalGrid9 : List Nat := [1, 2, 3, 4, 5, 6, 7, 8, 0]

/-- The 15-puzzle goal arrangement `{1..15,0}`. -/
def goalGrid16 : List Nat :=
  [1, 2, 3, 4, 5, 6, 7, 8, 9, 10, 11, 12, 13, 14, 15, 0]

/-- The unsolvable grid of the spec scenario: `{1,2,3,4,5,6,8,7,0}`. -/
def unsolvableGrid9 : List Nat := [1, 2, 3, 4, 5, 6, 8, 7, 0]

/-- The start state the constructor builds from `easyGrid` (blank at index 2). -/
def easyStart : PuzzleState :=
  { state := easyGrid, blankIdx := 2, g := 0, h := 0, f := 0, move := 0,
    parentKey := "" }

/-- Witness for C8: the DOWN child of the `easy` start state, undone by UP. -/
theorem claim_C8_witness :
    ((generateChildren 3 (childDown 3 easyStart)).find?
        (fun d => d.move == inverseMove (childDown 3 easyStart).move)).map
      (fun d => (d.state, d.blankIdx)) =
      some (easyStart.state, easyStart.blankIdx) :=
  claim_C8_move_reversibility 3 easyStart (childDown 3 easyStart)
    (by decide) (by decide) (by decide) (by decide) (by decide)

/-- Association-list model of `std::unordered_map<std::string, PuzzleState>`. -/
def StateMap : Type := List (String × PuzzleState)

/-- Lookup modelling `map[key]` reads: the default-constructed (empty) state
when the key is absent, which is exactly what the C++ `.state.empty()` checks
test for. -/
def mapGet (m : StateMap) (k : String) : PuzzleState :=
  match List.find? (fun e => e.1 == k) m with
  | some e => e.2
  | none => emptyState

/-- Update modelling `map[key] = v`: prepend, shadowing any older entry. -/
def mapSet (m : StateMap) (k : String) (v : PuzzleState) : StateMap :=
  (k, v) :: m

/-- Length of the association list (used only to bound path reconstruction). -/
def mapLen (m : StateMap) : Nat :=
  List.length m

/-- Deterministic model of popping `std::priority_queue` with comparator
`p1.f > p2.f` (a min-heap on `f`, src/npuzzle.h `CompareCost`): remove the
earliest-pushed state among those of minimal `f`. The C++ heap's tie order is
unspecified; this refinement fixes FIFO among ties. -/
def popMin : List PuzzleState → Option (PuzzleState × List PuzzleState)
  | [] => none
  | x :: xs =>
    match popMin xs with
    | none => some (x, [])
    | some (m, rest) => if m.f < x.f then some (m, x :: rest) else some (x, xs)

/-- Mirrors the `while (parentKey != "")` walk of `NPuzzle::retracePath`
(src/main.cpp:802-824), prepending each ancestor fetched from the explored
registry; `fuel` bounds the walk (the registry's size suffices in any run the
engine produces). -/
def retraceFrom (explored : StateMap) : String → Nat → List PuzzleState
  | _, 0 => []
  | pk, fuel + 1 =>
    if pk = "" then []
    else
      retraceFrom explored (mapGet explored pk).parentKey fuel ++
        [mapGet explored pk]

/-- Mirrors `NPuzzle::retracePath`: the current state preceded by its ancestor
chain. -/
def retracePath (explored : StateMap) (current : PuzzleState) (fuel : Nat) :
    List PuzzleState :=
  retraceFrom explored current.parentKey fuel ++ [current]

/-- The solution and statistics `NPuzzle::solve` leaves in the instance:
`result`, `expanded`, `maxQueue`, `goalDepth`. -/
structure SearchResult where
  result : List PuzzleState
  expanded : Nat
  maxQueue : Nat
  goalDepth : Nat
deriving DecidableEq

/-- The body of the child-initialization `for` loop of `NPuzzle::solve`
(src/main.cpp:225-245), threaded over the queue and the frontier registry:
skip a child already present in the frontier or explored registry, otherwise
set `g`, `h`, `f` and `parentKey` and push it. -/
def admitChildren (hf : PuzzleState → Nat) (explored2 : StateMap)
    (current : PuzzleState) (currentKey : String)
    (children : List PuzzleState) (q1 : List PuzzleState)
    (frontier1 : StateMap) : List PuzzleState × StateMap :=
  children.foldl
    (fun acc child =>
      let childKey := getKey child.state
      if ¬ (mapGet acc.2 childKey).state = [] ∨
          ¬ (mapGet explored2 childKey).state = [] then acc
      else
        let child2 : PuzzleState :=
          { child with
            g := current.g + 1,
            h := hf child,
            f := current.g + 1 + hf child,
            parentKey := currentKey }
        (acc.1 ++ [child2], mapSet acc.2 childKey child2))
    (q1, frontier1)

/-- Mirrors the `while (!frontierQueue.empty())` loop of `NPuzzle::solve`
(src/main.cpp:194-251): pop the cheapest state, clear its frontier entry, test
the goal on pop, otherwise expand it if unexplored. `fuel` bounds the number of
iterations; `none` means the fuel ran out, so any `some`-result is the value of
the terminating C++ loop. -/
def solveLoop (len dim : Nat) (hf : PuzzleState → Nat) :
    Nat → List PuzzleState → StateMap → StateMap → Nat → Nat →
      Option SearchResult
  | 0, _, _, _, _, _ => none
  | fuel + 1, q, frontier, explored, expanded, maxQ =>
    match popMin q with
    | none => some ⟨[], expanded, maxQ, 0⟩
    | some (current, q1) =>
      let currentKey := getKey current.state
      let frontier1 := mapSet frontier currentKey emptyState
      if isGoal len current.state then
        let res := retracePath explored current (mapLen explored + 1)
        some ⟨res, expanded, maxQ, res.length⟩
      else if (mapGet explored currentKey).state = [] then
        let explored2 := mapSet explored currentKey current
        let children := generateChildren dim current
        let qf := admitChildren hf explored2 current currentKey children q1
          frontier1
        let maxQ2 := if maxQ < qf.1.length then qf.1.length else maxQ
        solveLoop len dim hf fuel qf.1 qf.2 explored2 (expanded + 1) maxQ2
      else
        solveLoop len dim hf fuel q1 frontier1 explored expanded maxQ

/-- Mirrors the `NPuzzle` constructor followed by `NPuzzle::solve` with an
integer-valued heuristic function `hf` (the heuristic the selector dispatches
to; exact for every selector except the Euclidean one): short-circuit on the
solvability check, else seed the frontier with the start state and run the
loop. -/
def solveN (grid : List Nat) (hf : PuzzleState → Nat) (fuel : Nat) :
    Option SearchResult :=
  let len := grid.length
  let dim := intSqrt len
  if isSolvable grid then
    let s0 : PuzzleState :=
      { state := grid, blankIdx := findBlankIdx grid, g := 0, h := 0, f := 0,
        move := 0, parentKey := "" }
    let h0 := hf s0
    let start : PuzzleState := { s0 with g := 0, h := h0, f := 0 + h0 }
    solveLoop len dim hf fuel [start] [(getKey start.state, start)] [] 0 0
  else
    some ⟨[], 0, 0, 0⟩

/-- C3: if the solvability check reports unsolvable, `solve` returns an empty
path immediately with all statistics still zero, for any heuristic function
and any fuel; and the concrete grid `{1,2,3,4,5,6,8,7,0}` (one inversion, odd
dimension) is reported unsolvable. -/
theorem claim_C3_unsolvable_short_circuit :
    (∀ (grid : List Nat) (hf : PuzzleState → Nat) (fuel : Nat),
        isSolvable grid = false →
          solveN grid hf fuel = some ⟨[], 0, 0, 0⟩) ∧
      isSolvable unsolvableGrid9 = false := by
  constructor
  · intro grid hf fuel hun
    unfold solveN
    simp [hun]
  · decide

/-- Witness for C3: the concrete unsolvable scenario returns the empty path
with `nodesExpanded = 0`. -/
theorem claim_C3_witness :
    solveN unsolvableGrid9 (fun _ => 0) 5 = some ⟨[], 0, 0, 0⟩ :=
  claim_C3_unsolvable_short_circuit.1 unsolvableGrid9 (fun _ => 0) 5
    claim_C3_unsolvable_short_circuit.2

/-- C6: if the start state already equals the goal arrangement (the 4×4 grid
`{1..15,0}`), `solve` returns a single-state path holding just the start state
and the nodes-expanded statistic is 0, for every heuristic function — the goal
test happens on pop, before the expansion step. -/
theorem claim_C6_goal_start_single_state :
    ∀ (hf : PuzzleState → Nat) (fuel : Nat),
      (solveN goalGrid16 hf (fuel + 1)).map
        (fun r => (r.result.map PuzzleState.state, r.expanded)) =
        some ([goalGrid16], 0) := by
  intro hf fuel
  rfl

/-- C5 fails on the code: grid `{1,2,0,4,5,3,7,8,6}` is solved in 2 moves, so
both UniformCost and Manhattan return a 3-state path, not a 6-state one. -/
theorem claim_C5_counterexample :
    ((solveN easyGrid (fun _ => 0) 600).map
        (fun r => r.result.length) = some 3 ∧
      ¬ (solveN easyGrid (fun _ => 0) 600).map
        (fun r => r.result.length) = some 6) ∧
    ((solveN easyGrid (fun p => manhattanDist 9 3 p.state) 600).map
        (fun r => r.result.length) = some 3 ∧
      ¬ (solveN easyGrid (fun p => manhattanDist 9 3 p.state) 600).map
        (fun r => r.result.length) = some 6) := by
  refine ⟨⟨?_, ?_⟩, ?_, ?_⟩ <;> decide

/-- C5 amended: grid `{1,2,0,4,5,3,7,8,6}` (dim 3) is solvable, and solve
under UniformCost and under Manhattan each return the 3-state path (start plus
2 moves) through `{1,2,3,4,5,0,7,8,6}` ending at `{1,2,3,4,5,6,7,8,0}`, with
goal depth 3. -/
theorem claim_C5_amended_easy_grid :
    isSolvable easyGrid = true ∧
    (solveN easyGrid (fun _ => 0) 600).map
        (fun r => (r.result.map PuzzleState.state, r.goalDepth)) =
      some ([easyGrid, [1, 2, 3, 4, 5, 0, 7, 8, 6], goalGrid9], 3) ∧
    (solveN easyGrid (fun p => manhattanDist 9 3 p.state) 600).map
        (fun r => (r.result.map PuzzleState.state, r.goalDepth)) =
      some ([easyGrid, [1, 2, 3, 4, 5, 0, 7, 8, 6], goalGrid9], 3) := by
  exact ⟨by decide, by decide, by decide⟩
